import Mathlib

/-!
Shallow embedding of the goxkit/tracing repository.

The embedded code:
* package `amqp` — the `AMQPHeader` carrier (`Set`, `Get`, `Keys`) over an
  `amqp.Table` (a Go `map[string]interface{}`), and `NewConsumerSpan`;
* package `zap` — `traceLog.MarshalLogObject` and `Format`.

External collaborators (the OpenTelemetry composite propagator and the SDK
tracer) are not part of this repository; they are modelled from the spec's
interface descriptions (§4.2, §6): the propagator serializes / parses the
W3C-style `traceparent` header value `vv-tttt…t-ssss…s-ff` and the tracer
starts a child span when the incoming context carries a valid span context,
else a fresh root span.

A Go `map[string]interface{}` is modelled as an association list
`List (String × HVal)`; `HVal.other` stands for any non-string value stored
in the heterogeneous header map. Go map assignment `h[k] = v` is
`tableAssign`, map lookup `h[k]` is `lookupTable`. `strings.ToLower` is
modelled character-wise (header keys here are ASCII).
-/

/-- A value of a heterogeneous AMQP header table (`interface{}` in Go):
either a string or some non-string payload, abstracted by a tag. -/
inductive HVal where
  | str (s : String)
  | other (tag : Nat)
deriving DecidableEq

/-- `amqp.Table`: the message-header map, modelled as an association list. -/
abbrev AMQPTable := List (String × HVal)

/-- `strings.ToLower`, character-wise (ASCII case mapping). -/
def stringsToLower (s : String) : String :=
  String.mk (s.data.map Char.toLower)

/-- Go map lookup `h[k]` (first matching key). -/
def lookupTable : AMQPTable → String → Option HVal
  | [], _ => none
  | (k', v) :: rest, k => if k' = k then some v else lookupTable rest k

/-- Go map assignment `h[k] = v`: replace the entry in place, or append. -/
def tableAssign : AMQPTable → String → HVal → AMQPTable
  | [], k, v => [(k, v)]
  | (k', v') :: rest, k, v =>
    if k' = k then (k, v) :: rest else (k', v') :: tableAssign rest k v

/-- Go's lexicographic string comparison `a <= b` (`sort.Strings` order),
as an executable comparison on the character lists. -/
def charListLe : List Char → List Char → Bool
  | [], _ => true
  | _ :: _, [] => false
  | a :: as, b :: bs => if a < b then true else if b < a then false else charListLe as bs

/-- Go string comparison `a <= b`. -/
def strLe (a b : String) : Bool :=
  charListLe a.data b.data

namespace AMQPHeader

/-- `AMQPHeader.Set`: lower-case the key, then store the value. -/
def Set (h : AMQPTable) (key val : String) : AMQPTable :=
  tableAssign h (stringsToLower key) (HVal.str val)

/-- `AMQPHeader.Get`: lower-case the key, look it up; return `""` when the
key is absent or the stored value is not a string. -/
def Get (h : AMQPTable) (key : String) : String :=
  match lookupTable h (stringsToLower key) with
  | some (HVal.str s) => s
  | _ => ""

/-- `AMQPHeader.Keys`: all keys of the table, sorted (`sort.Strings`). -/
def Keys (h : AMQPTable) : List String :=
  List.insertionSort (fun a b => strLe a b = true) (h.map Prod.fst)

end AMQPHeader

/-! ## Trace-context data model (OpenTelemetry `trace` package)

Identifiers are modelled as natural numbers below `2^128` (trace ids) and
`2^64` (span ids); an id is valid iff it is nonzero. -/

/-- `Traceparent` (from the source): the components of a propagated trace
context. -/
structure Traceparent where
  TraceID : Nat
  SpanID : Nat
  TraceFlags : Nat
deriving DecidableEq

/-- `trace.SpanContext`: the identifying part of a span. -/
structure SpanContext where
  traceID : Nat
  spanID : Nat
  traceFlags : Nat
  remote : Bool
deriving DecidableEq

/-- A started (or non-recording remote) span, as observable through the
`trace.Span` interface: its span context, name, parent span id, and whether
it is recording. -/
structure SpanData where
  sctx : SpanContext
  name : String
  parent : Option Nat
  recording : Bool
deriving DecidableEq

/-- `context.Context`, restricted to the trace-relevant content: the span
stored in it (if any). `context.Background()` holds none. -/
structure Context where
  span : Option SpanData
deriving DecidableEq

/-- `context.Background()`. -/
def backgroundContext : Context := ⟨none⟩

/-- The zero-valued span returned by `trace.SpanFromContext` on a context
with no span (a no-op span: not recording, zero span context). -/
def noopSpan : SpanData :=
  { sctx := { traceID := 0, spanID := 0, traceFlags := 0, remote := false }
    name := "", parent := none, recording := false }

/-- `trace.SpanFromContext`. -/
def spanFromContext (c : Context) : SpanData :=
  c.span.getD noopSpan

/-! ## Hex encoding / decoding of identifiers

`trace.TraceID.String` / `trace.SpanID.String` print the identifier as
fixed-width lower-case hex; the `traceparent` header uses the same form. -/

/-- The lower-case hex digit for `d < 16`. -/
def hexDigitChar (d : Nat) : Char :=
  match d with
  | 0 => '0' | 1 => '1' | 2 => '2' | 3 => '3' | 4 => '4' | 5 => '5' | 6 => '6' | 7 => '7'
  | 8 => '8' | 9 => '9' | 10 => 'a' | 11 => 'b' | 12 => 'c' | 13 => 'd' | 14 => 'e' | 15 => 'f'
  | _ => '0'

/-- Big-endian fixed-width hex rendering of `n` with `w` digits. -/
def toHexFixed : Nat → Nat → List Char
  | 0, _ => []
  | w + 1, n => toHexFixed w (n / 16) ++ [hexDigitChar (n % 16)]

/-- The value of one lower-case hex digit (the `traceparent` grammar admits
only `[0-9a-f]`). -/
def hexDigitVal (c : Char) : Option Nat :=
  if '0' ≤ c ∧ c ≤ '9' then some (c.toNat - 48)
  else if 'a' ≤ c ∧ c ≤ 'f' then some (c.toNat - 87)
  else none

/-- Big-endian hex parsing, accumulator style. -/
def parseHexAux : Nat → List Char → Option Nat
  | acc, [] => some acc
  | acc, c :: cs =>
    match hexDigitVal c with
    | some d => parseHexAux (acc * 16 + d) cs
    | none => none

/-- Parse a list of lower-case hex digits as a big-endian number. -/
def parseHex (cs : List Char) : Option Nat :=
  parseHexAux 0 cs

/-- Split a character list on `'-'`. -/
def splitDash : List Char → List (List Char)
  | [] => [[]]
  | c :: rest =>
    if c = '-' then [] :: splitDash rest
    else
      match splitDash rest with
      | [] => [[c]]
      | g :: gs => (c :: g) :: gs

/-! ## External propagator, modelled from the spec

Modelled from the spec: the "standard context-extraction algorithm" /
"propagation algorithm" of §4.2 and §6 (OpenTelemetry's
`propagation.TraceContext`, combined with `Baggage` in `AMQPPropagator`).
`Inject` writes the `traceparent` header `00-<32 hex>-<16 hex>-<2 hex>`
through the carrier when the context's span context is valid; `Extract`
parses that header through the carrier and stores the result as a remote,
non-recording span context, degrading to the unchanged context when the
header is missing or malformed. The `Baggage` member of the composite
propagator only moves baggage entries and never touches the span context,
so it is omitted from the model. -/

/-- The `traceparent` header value injected for ids `t`, `s` and flags `f`:
version `00`, then the ids in fixed-width lower-case hex, then the sampled
bit. -/
def traceparentChars (t s f : Nat) : List Char :=
  toHexFixed 2 0 ++ '-' :: (toHexFixed 32 t ++ '-' :: (toHexFixed 16 s ++ '-' :: toHexFixed 2 (f &&& 1)))

/-- Parse a `traceparent` header value: four dash-separated lower-case hex
groups of widths 2/32/16/2; the version must not be `ff` and both ids must
be nonzero. -/
def parseTraceparent (s : String) : Option Traceparent :=
  match splitDash s.data with
  | [ver, tid, sid, fl] =>
    if ver.length = 2 ∧ tid.length = 32 ∧ sid.length = 16 ∧ fl.length = 2 then
      match parseHex ver, parseHex tid, parseHex sid, parseHex fl with
      | some v, some t, some si, some f =>
        if v = 255 then none
        else if t = 0 then none
        else if si = 0 then none
        else some ⟨t, si, f &&& 1⟩
      | _, _, _, _ => none
    else none
  | _ => none

/-- `trace.ContextWithRemoteSpanContext`: store a remote span context as a
non-recording span. -/
def contextWithRemoteSpanContext (_c : Context) (sc : SpanContext) : Context :=
  ⟨some { sctx := { sc with remote := true }, name := "", parent := none, recording := false }⟩

/-- Modelled from the spec: `AMQPPropagator.Extract` (§6) — parse the
`traceparent` header read through the carrier; on success store the remote
span context, otherwise return the context unchanged. -/
def AMQPPropagatorExtract (c : Context) (h : AMQPTable) : Context :=
  match parseTraceparent (AMQPHeader.Get h "traceparent") with
  | some tp => contextWithRemoteSpanContext c
      { traceID := tp.TraceID, spanID := tp.SpanID, traceFlags := tp.TraceFlags, remote := true }
  | none => c

/-- Modelled from the spec: `AMQPPropagator.Inject` (§6) — write the
`traceparent` header through the carrier when the context carries a valid
span context; otherwise leave the headers unchanged. -/
def AMQPPropagatorInject (c : Context) (h : AMQPTable) : AMQPTable :=
  let sc := (spanFromContext c).sctx
  if sc.traceID ≠ 0 ∧ sc.spanID ≠ 0 then
    AMQPHeader.Set h "traceparent"
      (String.mk (traceparentChars sc.traceID sc.spanID sc.traceFlags))
  else h

/-! ## External tracer, modelled from the spec -/

/-- Modelled from the spec: the "tracer capability" (§6), `start(context,
name) -> (context, span)`. The SDK tracer draws fresh identifiers from its
id generator; the model carries the generator's next outputs as fields. -/
structure Tracer where
  genTraceID : Nat
  genSpanID : Nat

/-- Modelled from the spec: `tracer.Start` (§4.2, §6) — when the incoming
context carries a valid span context, start a child span (same trace id,
fresh span id, parent = the incoming span id); otherwise start a fresh root
span. The returned context carries the new span. -/
def Tracer.start (tr : Tracer) (c : Context) (name : String) : Context × SpanData :=
  let psc := (spanFromContext c).sctx
  let sp : SpanData :=
    if psc.traceID ≠ 0 ∧ psc.spanID ≠ 0 then
      { sctx := { traceID := psc.traceID, spanID := tr.genSpanID
                  traceFlags := psc.traceFlags, remote := false }
        name := name, parent := some psc.spanID, recording := true }
    else
      { sctx := { traceID := tr.genTraceID, spanID := tr.genSpanID
                  traceFlags := 1, remote := false }
        name := name, parent := none, recording := true }
  (⟨some sp⟩, sp)

/-- `NewConsumerSpan`: extract the propagated context from the headers into
a fresh background context, then start the span `"consume." ++ typ`. -/
def NewConsumerSpan (tracer : Tracer) (header : AMQPTable) (typ : String) : Context × SpanData :=
  let ctx := AMQPPropagatorExtract backgroundContext header
  Tracer.start tracer ctx ("consume." ++ typ)

/-- An invocation of `NewConsumerSpan` by a caller holding ambient context
`_amb`: the source body starts from `context.Background()`, so the caller's
ambient context has no channel into the computation. -/
def callNewConsumerSpan (_amb : Context) (tracer : Tracer) (header : AMQPTable) (typ : String) :
    Context × SpanData :=
  let ctx := AMQPPropagatorExtract backgroundContext header
  Tracer.start tracer ctx ("consume." ++ typ)

/-! ## Package `zap`: log-field formatting -/

/-- `traceLog`: trace and span id strings destined for a structured log
entry. -/
structure traceLog where
  TraceID : String
  SpanID : String
deriving DecidableEq

/-- `traceLog.MarshalLogObject`: append the two fields to the encoder's
output; the returned error is always `none` (nil). -/
def traceLog.MarshalLogObject (u : traceLog) (enc : List (String × String)) :
    List (String × String) × Option String :=
  (enc ++ [("trace_id", u.TraceID), ("span_id", u.SpanID)], none)

/-- A `zapcore.Field` as produced by `Format`: either `zap.Skip()` (the
inert no-op field) or `zap.Inline` of a `traceLog`. -/
inductive ZapField where
  | skip
  | inline (obj : traceLog)
deriving DecidableEq

/-- `trace.TraceID.String`: 32 lower-case hex digits. -/
def traceIDString (t : Nat) : String :=
  String.mk (toHexFixed 32 t)

/-- `trace.SpanID.String`: 16 lower-case hex digits. -/
def spanIDString (s : Nat) : String :=
  String.mk (toHexFixed 16 s)

/-- `Format`: return `zap.Skip()` when the context's span is not recording,
else an inline field holding the span's trace and span id strings. -/
def Format (ctx : Context) : ZapField :=
  let span := spanFromContext ctx
  if !span.recording then ZapField.skip
  else ZapField.inline ⟨traceIDString span.sctx.traceID, spanIDString span.sctx.spanID⟩

/-! ## Auxiliary predicates used to state the claims -/

/-- Two character lists agree up to letter case (pointwise equal after
lower-casing). -/
def eqUpToCaseChars : List Char → List Char → Bool
  | [], [] => true
  | a :: as, b :: bs => a.toLower == b.toLower && eqUpToCaseChars as bs
  | _, _ => false

/-- Two strings differ only in letter case. -/
def eqUpToCase (a b : String) : Bool :=
  eqUpToCaseChars a.data b.data

/-- The string contains an upper-case (ASCII) letter. -/
def containsUpper (s : String) : Bool :=
  s.data.any Char.isUpper

/-- A producer-side context carrying a recording span with the given trace
id, span id and flags (the context a producer injects from). -/
def producerContext (t s f : Nat) : Context :=
  ⟨some { sctx := { traceID := t, spanID := s, traceFlags := f, remote := false }
          name := "producer", parent := none, recording := true }⟩

/-- A header map holding, directly (not via `Set`), an upper-cased key and
its lower-cased twin. -/
def twinTable : AMQPTable :=
  [("Foo", HVal.str "1"), ("foo", HVal.str "2")]

/-- A context holding a recording span with trace id 3 and span id 5. -/
def recordingContext : Context :=
  ⟨some { sctx := { traceID := 3, spanID := 5, traceFlags := 1, remote := false }
          name := "op", parent := none, recording := true }⟩

/-! ## Carrier lemmas -/

theorem lookupTable_tableAssign_self (h : AMQPTable) (k : String) (v : HVal) :
    lookupTable (tableAssign h k v) k = some v := by
  induction h with
  | nil => simp [tableAssign, lookupTable]
  | cons p rest ih =>
    obtain ⟨k', v'⟩ := p
    by_cases hk : k' = k
    · subst hk; simp [tableAssign, lookupTable]
    · simp [tableAssign, lookupTable, hk, ih]

theorem lookupTable_tableAssign_ne (h : AMQPTable) (k j : String) (v : HVal) (hj : j ≠ k) :
    lookupTable (tableAssign h k v) j = lookupTable h j := by
  have hk : ¬ k = j := fun e => hj e.symm
  induction h with
  | nil => simp [tableAssign, lookupTable, hk]
  | cons p rest ih =>
    obtain ⟨k', v'⟩ := p
    by_cases hkk : k' = k
    · subst hkk
      simp [tableAssign, lookupTable, hk]
    · simp [tableAssign, lookupTable, hkk, ih]

theorem lookupTable_mem {h : AMQPTable} {k : String} {v : HVal}
    (hl : lookupTable h k = some v) : k ∈ h.map Prod.fst := by
  induction h with
  | nil => simp [lookupTable] at hl
  | cons p rest ih =>
    obtain ⟨k', v'⟩ := p
    by_cases hk : k' = k
    · subst hk; simp
    · rw [lookupTable, if_neg hk] at hl
      simpa using Or.inr (ih hl)

/-! ## Case lemmas -/

theorem eqUpToCaseChars_map : ∀ {xs ys : List Char}, eqUpToCaseChars xs ys = true →
    xs.map Char.toLower = ys.map Char.toLower
  | [], [], _ => rfl
  | [], _ :: _, h => by simp [eqUpToCaseChars] at h
  | _ :: _, [], h => by simp [eqUpToCaseChars] at h
  | a :: as, b :: bs, h => by
    rw [eqUpToCaseChars, Bool.and_eq_true, beq_iff_eq] at h
    simp only [List.map_cons, h.1, eqUpToCaseChars_map h.2]

theorem stringsToLower_eq_of_eqUpToCase {a b : String} (h : eqUpToCase a b = true) :
    stringsToLower a = stringsToLower b :=
  congrArg String.mk (eqUpToCaseChars_map h)

/-! ## Sort-order bridge: `strLe` agrees with the lexicographic order -/

theorem lex_cons_inv {a b : Char} {as bs : List Char}
    (h : List.Lex (· < ·) (b :: bs) (a :: as)) :
    b < a ∨ (b = a ∧ List.Lex (· < ·) bs as) := by
  cases h with
  | rel h' => exact Or.inl h'
  | cons h' => exact Or.inr ⟨rfl, h'⟩

theorem charListLe_iff : ∀ xs ys : List Char,
    charListLe xs ys = true ↔ ¬ List.Lex (· < ·) ys xs
  | [], ys => by
    simp only [charListLe, true_iff]
    intro h; cases h
  | _ :: _, [] => by
    simp only [charListLe, Bool.false_eq_true, false_iff, not_not]
    exact List.Lex.nil
  | a :: as, b :: bs => by
    rcases lt_trichotomy a b with hab | hab | hab
    · simp only [charListLe, if_pos hab, true_iff]
      intro h
      rcases lex_cons_inv h with h' | ⟨rfl, _⟩
      · exact absurd hab (asymm h')
      · exact lt_irrefl _ hab
    · subst hab
      simp only [charListLe, if_neg (lt_irrefl a), charListLe_iff as bs]
      constructor
      · intro h hl
        rcases lex_cons_inv hl with h' | ⟨_, h'⟩
        · exact lt_irrefl a h'
        · exact h h'
      · exact fun h h' => h (List.Lex.cons h')
    · simp only [charListLe, if_neg (asymm hab), if_pos hab, Bool.false_eq_true, false_iff,
        not_not]
      exact List.Lex.rel hab

theorem strLe_iff (a b : String) : strLe a b = true ↔ a ≤ b := by
  rw [strLe, charListLe_iff, String.le_iff_toList_le, ← not_lt]
  exact Iff.rfl

instance strLeTotal : IsTotal String (fun a b => strLe a b = true) :=
  ⟨fun a b => by
    rw [strLe_iff, strLe_iff]
    exact le_total a b⟩

instance strLeTrans : IsTrans String (fun a b => strLe a b = true) :=
  ⟨fun a b c hab hbc => by
    rw [strLe_iff] at hab hbc ⊢
    exact le_trans hab hbc⟩

theorem Keys_sorted_le (h : AMQPTable) : List.Sorted (· ≤ ·) (AMQPHeader.Keys h) :=
  (List.sorted_insertionSort (fun a b => strLe a b = true) (h.map Prod.fst)).imp
    fun hab => (strLe_iff _ _).mp hab

theorem Keys_perm (h : AMQPTable) : (AMQPHeader.Keys h).Perm (h.map Prod.fst) :=
  List.perm_insertionSort _ _

/-! ## Hex round-trip lemmas -/

theorem length_toHexFixed (w : Nat) : ∀ n, (toHexFixed w n).length = w := by
  induction w with
  | zero => intro n; rfl
  | succ w ih => intro n; simp [toHexFixed, ih]

theorem hexDigitChar_large (m : Nat) : hexDigitChar (m + 16) = '0' := rfl

theorem hexDigitChar_ne_dash (d : Nat) : hexDigitChar d ≠ '-' := by
  by_cases hd : d < 16
  · interval_cases d <;> decide
  · obtain ⟨m, rfl⟩ : ∃ m, d = m + 16 := ⟨d - 16, by omega⟩
    rw [hexDigitChar_large]
    decide

theorem dash_not_mem_toHexFixed (w : Nat) : ∀ n, '-' ∉ toHexFixed w n := by
  induction w with
  | zero => intro n; simp [toHexFixed]
  | succ w ih =>
    intro n
    simp only [toHexFixed, List.mem_append, List.mem_singleton]
    push_neg
    exact ⟨ih _, fun e => hexDigitChar_ne_dash _ e.symm⟩

theorem hexDigitVal_hexDigitChar {d : Nat} (hd : d < 16) :
    hexDigitVal (hexDigitChar d) = some d := by
  interval_cases d <;> decide

theorem parseHexAux_append (xs : List Char) : ∀ (acc : Nat) (ys : List Char),
    parseHexAux acc (xs ++ ys) =
      match parseHexAux acc xs with
      | some m => parseHexAux m ys
      | none => none := by
  induction xs with
  | nil => intro acc ys; rfl
  | cons c cs ih =>
    intro acc ys
    rw [List.cons_append, parseHexAux, parseHexAux]
    cases hexDigitVal c with
    | none => rfl
    | some d => exact ih _ _

theorem parseHexAux_single {c : Char} {d : Nat} (h : hexDigitVal c = some d) (m : Nat) :
    parseHexAux m [c] = some (m * 16 + d) := by
  simp [parseHexAux, h]

theorem parseHexAux_toHexFixed (w : Nat) : ∀ acc n : Nat,
    parseHexAux acc (toHexFixed w n) = some (acc * 16 ^ w + n % 16 ^ w) := by
  induction w with
  | zero => intro acc n; simp [toHexFixed, parseHexAux, Nat.mod_one]
  | succ w ih =>
    intro acc n
    rw [toHexFixed, parseHexAux_append, ih]
    show parseHexAux (acc * 16 ^ w + n / 16 % 16 ^ w) [hexDigitChar (n % 16)] =
      some (acc * 16 ^ (w + 1) + n % 16 ^ (w + 1))
    rw [parseHexAux_single (hexDigitVal_hexDigitChar (Nat.mod_lt n (by norm_num)))]
    congr 1
    have h16 : (16 : Nat) ^ (w + 1) = 16 * 16 ^ w := by ring
    have hmod : n % (16 * 16 ^ w) = n % 16 + 16 * (n / 16 % 16 ^ w) := Nat.mod_mul
    rw [h16, hmod]
    ring

theorem parseHex_toHexFixed {w n : Nat} (h : n < 16 ^ w) :
    parseHex (toHexFixed w n) = some n := by
  rw [parseHex, parseHexAux_toHexFixed]
  simp [Nat.mod_eq_of_lt h]

/-! ## `splitDash` lemmas -/

theorem splitDash_no_dash : ∀ {xs : List Char}, '-' ∉ xs → splitDash xs = [xs]
  | [], _ => rfl
  | c :: cs, h => by
    have hc : ¬ c = '-' := fun e => h (e ▸ List.mem_cons_self c cs)
    have hcs : '-' ∉ cs := fun m => h (List.mem_cons_of_mem _ m)
    rw [splitDash, if_neg hc, splitDash_no_dash hcs]

theorem splitDash_append : ∀ {xs : List Char}, '-' ∉ xs → ∀ ys : List Char,
    splitDash (xs ++ '-' :: ys) = xs :: splitDash ys
  | [], _, ys => by simp [splitDash]
  | c :: cs, h, ys => by
    have hc : ¬ c = '-' := fun e => h (e ▸ List.mem_cons_self c cs)
    have hcs : '-' ∉ cs := fun m => h (List.mem_cons_of_mem _ m)
    rw [List.cons_append, splitDash, if_neg hc, splitDash_append hcs ys]

/-! ## Parsing the injected `traceparent` value -/

theorem splitDash_traceparentChars (t s f : Nat) :
    splitDash (traceparentChars t s f) =
      [toHexFixed 2 0, toHexFixed 32 t, toHexFixed 16 s, toHexFixed 2 (f &&& 1)] := by
  rw [traceparentChars, splitDash_append (dash_not_mem_toHexFixed 2 0),
    splitDash_append (dash_not_mem_toHexFixed 32 t),
    splitDash_append (dash_not_mem_toHexFixed 16 s),
    splitDash_no_dash (dash_not_mem_toHexFixed 2 (f &&& 1))]

theorem parseTraceparent_traceparentChars {t s : Nat} (f : Nat)
    (ht : t < 2 ^ 128) (ht0 : t ≠ 0) (hs : s < 2 ^ 64) (hs0 : s ≠ 0) :
    parseTraceparent (String.mk (traceparentChars t s f)) = some ⟨t, s, f &&& 1⟩ := by
  have hdata : (String.mk (traceparentChars t s f)).data = traceparentChars t s f := rfl
  have ht' : t < 16 ^ 32 := by
    calc t < 2 ^ 128 := ht
    _ = 16 ^ 32 := by norm_num
  have hs' : s < 16 ^ 16 := by
    calc s < 2 ^ 64 := hs
    _ = 16 ^ 16 := by norm_num
  have hf' : f &&& 1 < 16 ^ 2 := lt_of_le_of_lt Nat.and_le_right (by norm_num)
  rw [parseTraceparent, hdata, splitDash_traceparentChars]
  show (if (toHexFixed 2 0).length = 2 ∧ (toHexFixed 32 t).length = 32 ∧
        (toHexFixed 16 s).length = 16 ∧ (toHexFixed 2 (f &&& 1)).length = 2 then _ else none) = _
  rw [if_pos ⟨length_toHexFixed 2 0, length_toHexFixed 32 t, length_toHexFixed 16 s,
    length_toHexFixed 2 (f &&& 1)⟩,
    parseHex_toHexFixed (show (0 : Nat) < 16 ^ 2 by norm_num),
    parseHex_toHexFixed ht', parseHex_toHexFixed hs', parseHex_toHexFixed hf']
  show (if (0 : Nat) = 255 then none else if t = 0 then none else if s = 0 then none
    else some (Traceparent.mk t s ((f &&& 1) &&& 1))) = some (Traceparent.mk t s (f &&& 1))
  rw [if_neg (by norm_num), if_neg ht0, if_neg hs0, Nat.and_assoc,
    (by decide : (1 : Nat) &&& 1 = 1)]

/-! ## Carrier round-trip through `Set` -/

theorem get_set_eq (h : AMQPTable) (k k' v : String)
    (hk : stringsToLower k' = stringsToLower k) :
    AMQPHeader.Get (AMQPHeader.Set h k v) k' = v := by
  rw [AMQPHeader.Get, AMQPHeader.Set, hk, lookupTable_tableAssign_self]

/-! ## Propagator / tracer helper lemmas -/

theorem inject_producerContext (h : AMQPTable) {t s : Nat} (f : Nat)
    (ht0 : t ≠ 0) (hs0 : s ≠ 0) :
    AMQPPropagatorInject (producerContext t s f) h =
      AMQPHeader.Set h "traceparent" (String.mk (traceparentChars t s f)) := by
  unfold AMQPPropagatorInject spanFromContext producerContext
  dsimp only [Option.getD]
  rw [if_pos ⟨ht0, hs0⟩]

theorem extract_some {h : AMQPTable} {tp : Traceparent}
    (hp : parseTraceparent (AMQPHeader.Get h "traceparent") = some tp) :
    AMQPPropagatorExtract backgroundContext h =
      ⟨some { sctx := { traceID := tp.TraceID, spanID := tp.SpanID
                        traceFlags := tp.TraceFlags, remote := true }
              name := "", parent := none, recording := false }⟩ := by
  unfold AMQPPropagatorExtract
  rw [hp]
  rfl

theorem extract_none {h : AMQPTable}
    (hp : parseTraceparent (AMQPHeader.Get h "traceparent") = none) :
    AMQPPropagatorExtract backgroundContext h = backgroundContext := by
  unfold AMQPPropagatorExtract
  rw [hp]

theorem start_child (tr : Tracer) (c : Context) (nm : String)
    (h1 : (spanFromContext c).sctx.traceID ≠ 0) (h2 : (spanFromContext c).sctx.spanID ≠ 0) :
    Tracer.start tr c nm =
      (⟨some { sctx := { traceID := (spanFromContext c).sctx.traceID, spanID := tr.genSpanID
                         traceFlags := (spanFromContext c).sctx.traceFlags, remote := false }
               name := nm, parent := some (spanFromContext c).sctx.spanID, recording := true }⟩,
       { sctx := { traceID := (spanFromContext c).sctx.traceID, spanID := tr.genSpanID
                   traceFlags := (spanFromContext c).sctx.traceFlags, remote := false }
         name := nm, parent := some (spanFromContext c).sctx.spanID, recording := true }) := by
  simp only [Tracer.start]
  rw [if_pos ⟨h1, h2⟩]

theorem start_root (tr : Tracer) (c : Context) (nm : String)
    (h : ¬ ((spanFromContext c).sctx.traceID ≠ 0 ∧ (spanFromContext c).sctx.spanID ≠ 0)) :
    Tracer.start tr c nm =
      (⟨some { sctx := { traceID := tr.genTraceID, spanID := tr.genSpanID
                         traceFlags := 1, remote := false }
               name := nm, parent := none, recording := true }⟩,
       { sctx := { traceID := tr.genTraceID, spanID := tr.genSpanID
                   traceFlags := 1, remote := false }
         name := nm, parent := none, recording := true }) := by
  simp only [Tracer.start]
  rw [if_neg h]

theorem start_name (tr : Tracer) (c : Context) (nm : String) :
    (Tracer.start tr c nm).2.name = nm := by
  by_cases hc : (spanFromContext c).sctx.traceID ≠ 0 ∧ (spanFromContext c).sctx.spanID ≠ 0
  · rw [start_child tr c nm hc.1 hc.2]
  · rw [start_root tr c nm hc]

/-! ## Claim theorems -/

/-- C1: For every header map into which a producer has injected a context
carrying trace id `T` and span id `S1`, `NewConsumerSpan` on that map
returns a span with the same trace id `T`, a span id distinct from `S1`
(the tracer's freshly generated id), and parent span id `S1`. -/
theorem consumerSpan_descendant_of_producer (tr : Tracer) (h : AMQPTable)
    (T S1 fl : Nat) (typ : String)
    (hT : T < 2 ^ 128) (hT0 : T ≠ 0) (hS : S1 < 2 ^ 64) (hS0 : S1 ≠ 0)
    (hfresh : tr.genSpanID ≠ S1) :
    (NewConsumerSpan tr (AMQPPropagatorInject (producerContext T S1 fl) h) typ).2.sctx.traceID = T ∧
    (NewConsumerSpan tr (AMQPPropagatorInject (producerContext T S1 fl) h) typ).2.sctx.spanID ≠ S1 ∧
    (NewConsumerSpan tr (AMQPPropagatorInject (producerContext T S1 fl) h) typ).2.parent = some S1 := by
  have hget : AMQPHeader.Get
      (AMQPHeader.Set h "traceparent" (String.mk (traceparentChars T S1 fl))) "traceparent" =
      String.mk (traceparentChars T S1 fl) :=
    get_set_eq h "traceparent" "traceparent" _ rfl
  have hex : AMQPPropagatorExtract backgroundContext
      (AMQPPropagatorInject (producerContext T S1 fl) h) =
      ⟨some { sctx := { traceID := T, spanID := S1, traceFlags := fl &&& 1, remote := true }
              name := "", parent := none, recording := false }⟩ := by
    rw [inject_producerContext h fl hT0 hS0]
    exact extract_some (by rw [hget]; exact parseTraceparent_traceparentChars fl hT hT0 hS hS0)
  have hrun : NewConsumerSpan tr (AMQPPropagatorInject (producerContext T S1 fl) h) typ =
      (⟨some { sctx := { traceID := T, spanID := tr.genSpanID
                         traceFlags := fl &&& 1, remote := false }
               name := "consume." ++ typ, parent := some S1, recording := true }⟩,
       { sctx := { traceID := T, spanID := tr.genSpanID
                   traceFlags := fl &&& 1, remote := false }
         name := "consume." ++ typ, parent := some S1, recording := true }) := by
    show Tracer.start tr (AMQPPropagatorExtract backgroundContext
      (AMQPPropagatorInject (producerContext T S1 fl) h)) ("consume." ++ typ) = _
    rw [hex, start_child tr
      ⟨some { sctx := { traceID := T, spanID := S1, traceFlags := fl &&& 1, remote := true }
              name := "", parent := none, recording := false }⟩ ("consume." ++ typ) hT0 hS0]
    rfl
  rw [hrun]
  exact ⟨rfl, hfresh, rfl⟩

/-- C1 witness: a concrete producer → consumer hop. -/
theorem consumerSpan_descendant_of_producer_witness :
    (NewConsumerSpan ⟨9, 7⟩ (AMQPPropagatorInject (producerContext 3 5 1) []) "orders").2.sctx.traceID = 3 ∧
    (NewConsumerSpan ⟨9, 7⟩ (AMQPPropagatorInject (producerContext 3 5 1) []) "orders").2.sctx.spanID ≠ 5 ∧
    (NewConsumerSpan ⟨9, 7⟩ (AMQPPropagatorInject (producerContext 3 5 1) []) "orders").2.parent = some 5 :=
  consumerSpan_descendant_of_producer ⟨9, 7⟩ [] 3 5 1 "orders"
    (by norm_num) (by decide) (by norm_num) (by decide) (by decide)

/-- C2: for keys that differ only in letter case, `Set` under one and `Get`
under the other round-trips the value. -/
theorem set_get_case_insensitive_roundtrip (h : AMQPTable) (k1 k2 v : String)
    (hc : eqUpToCase k1 k2 = true) :
    AMQPHeader.Get (AMQPHeader.Set h k1 v) k2 = v :=
  get_set_eq h k1 k2 v (stringsToLower_eq_of_eqUpToCase hc).symm

/-- C2 witness. -/
theorem set_get_case_insensitive_roundtrip_witness :
    AMQPHeader.Get (AMQPHeader.Set [] "Content-Type" "v1") "content-TYPE" = "v1" :=
  set_get_case_insensitive_roundtrip [] "Content-Type" "content-TYPE" "v1" (by decide)

/-- C3: on a header map with no syntactically valid `traceparent` entry
(in particular an empty map or one holding only unrelated keys),
`NewConsumerSpan` still returns a context/span pair — the span a fresh
root: the tracer's new trace id, no parent — with no error outcome (the
operation's type has no error component). -/
theorem consumerSpan_root_on_invalid_headers (tr : Tracer) (h : AMQPTable) (typ : String)
    (hno : parseTraceparent (AMQPHeader.Get h "traceparent") = none) :
    (NewConsumerSpan tr h typ).1.span = some (NewConsumerSpan tr h typ).2 ∧
    (NewConsumerSpan tr h typ).2.sctx.traceID = tr.genTraceID ∧
    (NewConsumerSpan tr h typ).2.sctx.spanID = tr.genSpanID ∧
    (NewConsumerSpan tr h typ).2.parent = none ∧
    (NewConsumerSpan tr h typ).2.recording = true := by
  have hrun : NewConsumerSpan tr h typ =
      (⟨some { sctx := { traceID := tr.genTraceID, spanID := tr.genSpanID
                         traceFlags := 1, remote := false }
               name := "consume." ++ typ, parent := none, recording := true }⟩,
       { sctx := { traceID := tr.genTraceID, spanID := tr.genSpanID
                   traceFlags := 1, remote := false }
         name := "consume." ++ typ, parent := none, recording := true }) := by
    show Tracer.start tr (AMQPPropagatorExtract backgroundContext h) ("consume." ++ typ) = _
    rw [extract_none hno, start_root tr backgroundContext ("consume." ++ typ) (by decide)]
  rw [hrun]
  exact ⟨rfl, rfl, rfl, rfl, rfl⟩

/-- C3 witness: the empty map, and a map with only the garbage entry
`"foo" : "bar"`. -/
theorem consumerSpan_root_on_invalid_headers_witness :
    ((NewConsumerSpan ⟨9, 7⟩ [] "q").1.span = some (NewConsumerSpan ⟨9, 7⟩ [] "q").2 ∧
     (NewConsumerSpan ⟨9, 7⟩ [] "q").2.sctx.traceID = 9 ∧
     (NewConsumerSpan ⟨9, 7⟩ [] "q").2.sctx.spanID = 7 ∧
     (NewConsumerSpan ⟨9, 7⟩ [] "q").2.parent = none ∧
     (NewConsumerSpan ⟨9, 7⟩ [] "q").2.recording = true) ∧
    ((NewConsumerSpan ⟨9, 7⟩ [("foo", HVal.str "bar")] "q").1.span =
        some (NewConsumerSpan ⟨9, 7⟩ [("foo", HVal.str "bar")] "q").2 ∧
     (NewConsumerSpan ⟨9, 7⟩ [("foo", HVal.str "bar")] "q").2.sctx.traceID = 9 ∧
     (NewConsumerSpan ⟨9, 7⟩ [("foo", HVal.str "bar")] "q").2.sctx.spanID = 7 ∧
     (NewConsumerSpan ⟨9, 7⟩ [("foo", HVal.str "bar")] "q").2.parent = none ∧
     (NewConsumerSpan ⟨9, 7⟩ [("foo", HVal.str "bar")] "q").2.recording = true) :=
  ⟨consumerSpan_root_on_invalid_headers ⟨9, 7⟩ [] "q" (by decide),
   consumerSpan_root_on_invalid_headers ⟨9, 7⟩ [("foo", HVal.str "bar")] "q" (by decide)⟩

/-- C4: `Keys` is sorted (lexicographically) and is a permutation of the
stored keys, for every carrier; in particular inserting `"b"`, `"A"`, `"c"`
via `Set` yields `["a", "b", "c"]` (sorted and case-normalized). -/
theorem keys_sorted_and_normalized :
    (∀ h : AMQPTable, List.Sorted (· ≤ ·) (AMQPHeader.Keys h) ∧
      (AMQPHeader.Keys h).Perm (h.map Prod.fst)) ∧
    AMQPHeader.Keys (AMQPHeader.Set (AMQPHeader.Set (AMQPHeader.Set [] "b" "1") "A" "2") "c" "3") =
      ["a", "b", "c"] :=
  ⟨fun h => ⟨Keys_sorted_le h, Keys_perm h⟩, by decide⟩

/-- C5: `Get` returns the empty string both when the (normalized) key is
absent and when the stored value is not a string — the two cases are
indistinguishable to the caller. -/
theorem get_absent_or_nonstring_empty (h : AMQPTable) (k : String) :
    (lookupTable h (stringsToLower k) = none → AMQPHeader.Get h k = "") ∧
    (∀ tag, lookupTable h (stringsToLower k) = some (HVal.other tag) → AMQPHeader.Get h k = "") := by
  constructor
  · intro hnone
    unfold AMQPHeader.Get
    rw [hnone]
  · intro tag htag
    unfold AMQPHeader.Get
    rw [htag]

/-- C5 witness: an absent key, and a key stored with a non-string value. -/
theorem get_absent_or_nonstring_empty_witness :
    AMQPHeader.Get [("size", HVal.other 7)] "missing" = "" ∧
    AMQPHeader.Get [("size", HVal.other 7)] "Size" = "" :=
  ⟨(get_absent_or_nonstring_empty [("size", HVal.other 7)] "missing").1 (by decide),
   (get_absent_or_nonstring_empty [("size", HVal.other 7)] "Size").2 7 (by decide)⟩

/-- C6: `Format` returns the inert `Skip` field when the context's span is
not recording; when it is recording, it returns an inline field whose two
sub-values are the string forms of that span's trace id and span id, and
marshalling that field emits exactly those two key/value pairs. -/
theorem format_trace_fields_spec :
    (∀ ctx : Context, (spanFromContext ctx).recording = false → Format ctx = ZapField.skip) ∧
    (∀ ctx : Context, (spanFromContext ctx).recording = true →
      ∃ u : traceLog, Format ctx = ZapField.inline u ∧
        u.TraceID = traceIDString (spanFromContext ctx).sctx.traceID ∧
        u.SpanID = spanIDString (spanFromContext ctx).sctx.spanID ∧
        traceLog.MarshalLogObject u [] =
          ([("trace_id", u.TraceID), ("span_id", u.SpanID)], none)) := by
  constructor
  · intro ctx hrec
    simp [Format, hrec]
  · intro ctx hrec
    refine ⟨⟨traceIDString (spanFromContext ctx).sctx.traceID,
             spanIDString (spanFromContext ctx).sctx.spanID⟩, ?_, rfl, rfl, rfl⟩
    simp [Format, hrec]

/-- C6 witness: a context with no span, and a context with a recording
span. -/
theorem format_trace_fields_spec_witness :
    Format backgroundContext = ZapField.skip ∧
    (∃ u : traceLog,
      Format recordingContext = ZapField.inline u ∧
      u.TraceID = traceIDString (spanFromContext recordingContext).sctx.traceID ∧
      u.SpanID = spanIDString (spanFromContext recordingContext).sctx.spanID ∧
      traceLog.MarshalLogObject u [] =
        ([("trace_id", u.TraceID), ("span_id", u.SpanID)], none)) :=
  ⟨format_trace_fields_spec.1 backgroundContext (by decide),
   format_trace_fields_spec.2 recordingContext (by decide)⟩

/-- C7: the span started by `NewConsumerSpan` is named by the fixed
`"consume."` text followed by `typ`. -/
theorem consumerSpan_name_consume_typ (tr : Tracer) (h : AMQPTable) (typ : String) :
    (NewConsumerSpan tr h typ).2.name = "consume." ++ typ :=
  start_name tr (AMQPPropagatorExtract backgroundContext h) ("consume." ++ typ)

/-- C8: `Set` stores the value under the lower-cased key (overwriting any
previous value there) and leaves every other key of the wrapped map
unchanged. -/
theorem set_lowercases_overwrites_frame (h : AMQPTable) (k v : String) :
    lookupTable (AMQPHeader.Set h k v) (stringsToLower k) = some (HVal.str v) ∧
    ∀ j, j ≠ stringsToLower k → lookupTable (AMQPHeader.Set h k v) j = lookupTable h j :=
  ⟨lookupTable_tableAssign_self h (stringsToLower k) (HVal.str v),
   fun j hj => lookupTable_tableAssign_ne h (stringsToLower k) j (HVal.str v) hj⟩

/-- C8 witness: overwriting a present lower-cased key while an unrelated
entry stays untouched. -/
theorem set_lowercases_overwrites_frame_witness :
    lookupTable (AMQPHeader.Set [("x", HVal.str "0"), ("k", HVal.str "old")] "K" "new")
      (stringsToLower "K") = some (HVal.str "new") ∧
    lookupTable (AMQPHeader.Set [("x", HVal.str "0"), ("k", HVal.str "old")] "K" "new") "x" =
      lookupTable [("x", HVal.str "0"), ("k", HVal.str "old")] "x" :=
  ⟨(set_lowercases_overwrites_frame [("x", HVal.str "0"), ("k", HVal.str "old")] "K" "new").1,
   (set_lowercases_overwrites_frame [("x", HVal.str "0"), ("k", HVal.str "old")] "K" "new").2
     "x" (by decide)⟩

/-- C9 counterexample: `twinTable` holds the directly-inserted entry
`("Foo", "1")` whose key includes an upper-case letter, yet `Get` queried
with that key's exact original casing returns `"2"` (the lower-cased
twin's value), not the empty string — refuting the claim as stated. -/
theorem get_uppercase_entry_counterexample :
    containsUpper "Foo" = true ∧
    lookupTable twinTable "Foo" = some (HVal.str "1") ∧
    AMQPHeader.Get twinTable "Foo" = "2" ∧
    AMQPHeader.Get twinTable "Foo" ≠ "" := by
  refine ⟨by decide, by decide, by decide, by decide⟩

/-- C9 (amended): for a map holding a directly-inserted entry whose key
includes an upper-case letter, and holding no entry under the lower-cased
form of that key, `Get` returns the empty string for every casing of that
key, and `Keys` lists the key in its original, un-normalized casing. -/
theorem get_uppercase_entry_amended (h : AMQPTable) (K q : String) (v : HVal)
    (hmem : lookupTable h K = some v)
    (_hup : containsUpper K = true)
    (habsent : lookupTable h (stringsToLower K) = none)
    (hq : eqUpToCase q K = true) :
    AMQPHeader.Get h q = "" ∧ K ∈ AMQPHeader.Keys h := by
  constructor
  · unfold AMQPHeader.Get
    rw [stringsToLower_eq_of_eqUpToCase hq, habsent]
  · exact (Keys_perm h).mem_iff.mpr (lookupTable_mem hmem)

/-- C9 witness: a single upper-cased entry with no lower-cased twin. -/
theorem get_uppercase_entry_amended_witness :
    AMQPHeader.Get [("Foo", HVal.str "1")] "fOO" = "" ∧
    "Foo" ∈ AMQPHeader.Keys [("Foo", HVal.str "1")] :=
  get_uppercase_entry_amended [("Foo", HVal.str "1")] "Foo" "fOO" (HVal.str "1")
    (by decide) (by decide) (by decide) (by decide)

/-- C10: the result of an invocation of `NewConsumerSpan` does not depend
on the caller's ambient context — the body extracts into
`context.Background()` — so any two calls with equal tracer, headers and
`typ` agree, and equal the source function's result. -/
theorem consumerSpan_ambient_noninterference (amb1 amb2 : Context) (tr : Tracer)
    (h : AMQPTable) (typ : String) :
    callNewConsumerSpan amb1 tr h typ = callNewConsumerSpan amb2 tr h typ ∧
    callNewConsumerSpan amb1 tr h typ = NewConsumerSpan tr h typ :=
  ⟨rfl, rfl⟩
